import Mathlib

/-!
Shallow embedding of scripts/check-python-versions.py.

The script audits a Python geospatial environment: it collects the GDAL,
PROJ and GEOS versions reported by several packages, normalizes each raw
version string, compares them against a system ground truth, and exits
with code 0 exactly when every library is aligned.

Strings are embedded through their character lists (String.data).  The two
regular expressions of normalize_version are embedded with the dot matching
any character and the dollar anchor meaning end of string; version strings
are single-line tokens, on which this agrees with the Python re module.
Case-insensitive matching of the ASCII literals is embedded through
Char.toLower, which agrees with the Python semantics on these letters.
-/

namespace CheckPythonVersions

/-- ASCII whitespace stripped by the Python str.strip method. -/
def isPyWhitespace (c : Char) : Bool :=
  c = ' ' || c = '\t' || c = '\n' || c = '\r' || c = '\x0b' || c = '\x0c'

/-- Embedding of the Python str.strip method on character lists. -/
def pyStripList (l : List Char) : List Char :=
  ((l.dropWhile isPyWhitespace).reverse.dropWhile isPyWhitespace).reverse

/-- Embedding of the Python str.strip method on strings. -/
def pyStrip (s : String) : String := String.mk (pyStripList s.data)

/-- Outcome of running an external command through subprocess.run with
check=True: either it produces standard output with exit status 0, or it
raises (non-zero exit status, missing binary, or any other exception). -/
inductive ExecOutcome where
  | ok (stdout : String)
  | exitNonZero
  | missingBinary
  | otherError
deriving DecidableEq

/-- Embedding of get_system_version (lines 14-20): the bare except clause
maps every failure to None; on success the stripped stdout is returned. -/
def get_system_version : ExecOutcome → Option String
  | .ok out => some (pyStrip out)
  | .exitNonZero => none
  | .missingBinary => none
  | .otherError => none

/-- True when the list begins with the letters d, e, v, case-insensitively;
the dev literal of the first regular expression of normalize_version. -/
def startsWithDev : List Char → Bool
  | c1 :: c2 :: c3 :: _ =>
      c1.toLower = 'd' && c2.toLower = 'e' && c3.toLower = 'v'
  | _ => false

/-- The optional separator of the first regular expression: hyphen or dot. -/
def isSep (c : Char) : Bool := c = '-' || c = '.'

/-- True when the regular expression piece, an optional separator followed
by the case-insensitive literal dev, matches at the head of the list. -/
def devMatchAt (l : List Char) : Bool :=
  startsWithDev l ||
    match l with
    | c :: rest => isSep c && startsWithDev rest
    | [] => false

/-- First substitution of normalize_version (line 28): delete from the
leftmost position where an optional separator plus dev matches, to the end. -/
def stripDevAux : List Char → List Char
  | [] => []
  | c :: rest => if devMatchAt (c :: rest) then [] else c :: stripDevAux rest

/-- Second substitution of normalize_version (line 29): delete from the
first hyphen to the end. -/
def stripHyphenAux : List Char → List Char
  | [] => []
  | c :: rest => if c = '-' then [] else c :: stripHyphenAux rest

/-- Embedding of normalize_version (lines 22-30). -/
def normalize_version : Option String → Option String
  | none => none
  | some v => some (String.mk (stripHyphenAux (stripDevAux v.data)))

example : normalize_version (some "3.8.0-dev3") = some "3.8.0" := by decide
example : normalize_version (some "3.8.0dev") = some "3.8.0" := by decide
example : normalize_version (some "3.8.0-1-abc") = some "3.8.0" := by decide
example : normalize_version (some "3.8.0.DEV4") = some "3.8.0" := by decide
example : normalize_version (some "9.2.1") = some "9.2.1" := by decide

/-- True when the beginning of the second list is the first list; the
Python str.startswith method on character lists. -/
def startsWithList : List Char → List Char → Bool
  | [], _ => true
  | _ :: _, [] => false
  | p :: ps, c :: cs => p = c && startsWithList ps cs

/-- The sentinel test of check_alignment (line 205): the Python expression
v.startswith applied to the four characters v, i, a, space. -/
def startsWithVia (l : List Char) : Bool :=
  startsWithList ['v', 'i', 'a', ' '] l

/-- The filter of check_alignment (lines 202-206): keep a package entry
only when its value is not None and does not start with the via sentinel. -/
def keep_literal : String × Option String → Option (String × String)
  | (_, none) => none
  | (p, some v) => if startsWithVia v.data then none else some (p, v)

/-- The actual_versions dictionary of check_alignment (lines 202-206),
embedded as a list of package-name, raw-version pairs in dictionary order. -/
def actual_versions (pkg_versions : List (String × Option String)) :
    List (String × String) :=
  pkg_versions.filterMap keep_literal

/-- One iteration of the mismatch loop of check_alignment (lines 214-217):
a package whose normalized version differs from the normalized ground truth
is recorded together with its raw and its normalized version. -/
def mismatch_of (system_norm : Option String) (pv : String × String) :
    Option (String × String × Option String) :=
  let pkg_norm := normalize_version (some pv.2)
  if pkg_norm ≠ system_norm then some (pv.1, pv.2, pkg_norm) else none

/-- Result of check_alignment: either no package reports a version directly
(the no-data branch of lines 207-209), or the check ran and produced the
normalized ground truth and the list of mismatches. -/
inductive CheckResult where
  | noData
  | checked (system_norm : Option String)
      (mismatches : List (String × String × Option String))
deriving DecidableEq

/-- Embedding of check_alignment (lines 199-227), keeping both the boolean
outcome and the printed mismatch data. -/
def check_alignment (system_ver : Option String)
    (pkg_versions : List (String × Option String)) : CheckResult :=
  let av := actual_versions pkg_versions
  if av.isEmpty then .noData
  else
    let system_norm := normalize_version system_ver
    .checked system_norm (av.filterMap (mismatch_of system_norm))

/-- The boolean returned by check_alignment: True on the no-data branch
(line 209) and when the mismatch list is empty (lines 219-221), False
otherwise (lines 222-227). -/
def check_passes : CheckResult → Bool
  | .noData => true
  | .checked _ ms => ms.isEmpty

/-- The mismatch list printed by check_alignment; empty on the no-data
branch. -/
def result_mismatches : CheckResult →
    List (String × String × Option String)
  | .noData => []
  | .checked _ ms => ms

/-- Embedding of the tail of the script (lines 233-245): the three
check_alignment calls and the final sys.exit, 0 when all three succeed and
1 otherwise. -/
def main_exit (system_gdal system_proj system_geos : Option String)
    (gdal_versions proj_versions geos_versions :
      List (String × Option String)) : Nat :=
  let gdal_ok := check_passes (check_alignment system_gdal gdal_versions)
  let proj_ok := check_passes (check_alignment system_proj proj_versions)
  let geos_ok := check_passes (check_alignment system_geos geos_versions)
  if gdal_ok && proj_ok && geos_ok then 0 else 1

example :
    check_alignment (some "3.8.0")
      [("osgeo.gdal", some "3.8.0dev"), ("rasterio", some "3.8.0"),
       ("rioxarray", some "via rasterio"), ("pyproj", none)] =
    .checked (some "3.8.0") [] := by decide

example :
    check_alignment (some "9.3.0") [("rasterio", some "9.2.1")] =
    .checked (some "9.3.0") [("rasterio", "9.2.1", some "9.2.1")] := by
  decide

/-- Embedding of the Python str.split method with a one-character
separator: n separator occurrences yield n plus one fields, empty fields
included. -/
def pySplitOn (sep : Char) : List Char → List (List Char)
  | [] => [[]]
  | c :: rest =>
    if c = sep then [] :: pySplitOn sep rest
    else
      match pySplitOn sep rest with
      | [] => [[c]]
      | h :: t => (c :: h) :: t

/-- True when the letters l, i, b occur consecutively in the list; with a
lowercased argument this is the Python test of the string lib being a
substring of line.lower(). -/
def containsLib : List Char → Bool
  | [] => false
  | c :: rest => startsWithList ['l', 'i', 'b'] (c :: rest) || containsLib rest

/-- The value extraction shared by the three branches of the geopandas
parsing loop (lines 141-143, 145-147, 149-151): split the line on every
colon and, when there are at least two parts, return the second part
stripped. -/
def parse_line_value (line : String) : Option String :=
  match pySplitOn ':' line.data with
  | _ :: p1 :: _ => some (String.mk (pyStripList p1))
  | _ => none

/-- The three accumulator variables gp_gdal, gp_proj, gp_geos of the
geopandas parsing loop (line 138). -/
structure GpVersions where
  gdal : Option String
  proj : Option String
  geos : Option String
deriving DecidableEq

/-- One iteration of the geopandas parsing loop (lines 139-151): an
if-elif chain on the stripped line, with the GEOS branch additionally
requiring that the lowercased line does not contain lib. -/
def gp_step (acc : GpVersions) (line : String) : GpVersions :=
  if startsWithList "GDAL".data (pyStripList line.data) then
    match parse_line_value line with
    | some v => { acc with gdal := some v }
    | none => acc
  else if startsWithList "PROJ".data (pyStripList line.data) then
    match parse_line_value line with
    | some v => { acc with proj := some v }
    | none => acc
  else if startsWithList "GEOS".data (pyStripList line.data)
      && !containsLib (line.data.map Char.toLower) then
    match parse_line_value line with
    | some v => { acc with geos := some v }
    | none => acc
  else acc

/-- Embedding of the geopandas parsing loop (lines 138-151): split the
captured show_versions output on newlines and fold the loop body over the
lines, starting from three absent values. -/
def parse_gp_info (gp_info : String) : GpVersions :=
  ((pySplitOn '\n' gp_info.data).map String.mk).foldl gp_step
    ⟨none, none, none⟩

/-- Everything after the first colon of the list, when a colon occurs. -/
def afterFirstColon : List Char → Option (List Char)
  | [] => none
  | c :: rest => if c = ':' then some rest else afterFirstColon rest

/-- The claimed extraction rule, modelled from the spec words: split the
line on the first colon and take the stripped remainder. -/
def claimed_value (line : String) : Option String :=
  (afterFirstColon line.data).map (fun rest => String.mk (pyStripList rest))

/-- The extraction rule the code implements, reformulated: the stripped
text between the first colon and the following colon or end of line. -/
def secondField (line : String) : Option String :=
  (afterFirstColon line.data).map
    (fun rest => String.mk (pyStripList (rest.takeWhile (fun c => c != ':'))))

/-- Index at which the first substitution of normalize_version starts
deleting: the leftmost position where an optional separator followed by
dev matches, or the length of the list when there is no match. -/
def firstDevMarker : List Char → Nat
  | [] => 0
  | c :: rest => if devMatchAt (c :: rest) then 0 else firstDevMarker rest + 1

/-- Second element of a list, when it has one. -/
def second? {α : Type} : List α → Option α
  | _ :: x :: _ => some x
  | _ => none

example :
    parse_gp_info "SomeHeader\nGDAL : 3.8.0\nGDAL data dir: /usr/share\nPROJ : 9.3.0\nGEOS : 3.12.1\nGEOS lib : 3.12.1-CAPI" =
    ⟨some "/usr/share", some "9.3.0", some "3.12.1"⟩ := by decide

example : parse_line_value "GDAL: 3.8.0:x" = some "3.8.0" := by decide
example : claimed_value "GDAL: 3.8.0:x" = some "3.8.0:x" := by decide

theorem stripDevAux_eq_take (l : List Char) :
    stripDevAux l = l.take (firstDevMarker l) := by
  induction l with
  | nil => rfl
  | cons c rest ih =>
    by_cases h : devMatchAt (c :: rest) = true
    · simp [stripDevAux, firstDevMarker, h]
    · simp [stripDevAux, firstDevMarker, h, ih]

theorem stripHyphenAux_eq_takeWhile (l : List Char) :
    stripHyphenAux l = l.takeWhile (fun c => c != '-') := by
  induction l with
  | nil => rfl
  | cons c rest ih =>
    by_cases h : c = '-'
    · simp [stripHyphenAux, List.takeWhile_cons, h]
    · simp [stripHyphenAux, List.takeWhile_cons, h, ih]

theorem startsWithDev_append (p t : List Char)
    (h : startsWithDev p = true) : startsWithDev (p ++ t) = true := by
  cases p with
  | nil => simp [startsWithDev] at h
  | cons c1 p1 =>
    cases p1 with
    | nil => simp [startsWithDev] at h
    | cons c2 p2 =>
      cases p2 with
      | nil => simp [startsWithDev] at h
      | cons c3 p3 => simpa [startsWithDev] using h

theorem devMatchAt_append (p t : List Char)
    (h : devMatchAt p = true) : devMatchAt (p ++ t) = true := by
  cases p with
  | nil => simp [devMatchAt, startsWithDev] at h
  | cons c rest =>
    simp only [devMatchAt, Bool.or_eq_true, Bool.and_eq_true] at h
    rcases h with h | ⟨hs, hd⟩
    · simp only [List.cons_append, devMatchAt, Bool.or_eq_true]
      exact Or.inl (startsWithDev_append _ t h)
    · simp only [List.cons_append, devMatchAt, Bool.or_eq_true,
        Bool.and_eq_true]
      exact Or.inr ⟨hs, startsWithDev_append rest t hd⟩

theorem stripDevAux_append_eq (l : List Char) :
    ∃ t, stripDevAux l ++ t = l := by
  induction l with
  | nil => exact ⟨[], rfl⟩
  | cons c rest ih =>
    by_cases h : devMatchAt (c :: rest) = true
    · exact ⟨c :: rest, by simp [stripDevAux, h]⟩
    · obtain ⟨t, ht⟩ := ih
      exact ⟨t, by simp [stripDevAux, h, ht]⟩

theorem stripHyphenAux_append_eq (l : List Char) :
    ∃ t, stripHyphenAux l ++ t = l := by
  induction l with
  | nil => exact ⟨[], rfl⟩
  | cons c rest ih =>
    by_cases h : c = '-'
    · exact ⟨c :: rest, by simp [stripHyphenAux, h]⟩
    · obtain ⟨t, ht⟩ := ih
      exact ⟨t, by simp [stripHyphenAux, h, ht]⟩

theorem stripDevAux_eq_self_of_append (p : List Char) (t : List Char)
    (h : stripDevAux (p ++ t) = p ++ t) : stripDevAux p = p := by
  induction p generalizing t with
  | nil => rfl
  | cons c p1 ih =>
    rw [List.cons_append] at h
    by_cases hm : devMatchAt (c :: (p1 ++ t)) = true
    · rw [stripDevAux, if_pos hm] at h
      exact absurd h (by simp)
    · rw [stripDevAux, if_neg hm] at h
      have h2 : stripDevAux (p1 ++ t) = p1 ++ t := (List.cons.inj h).2
      have hm2 : ¬devMatchAt (c :: p1) = true := by
        intro hc
        have := devMatchAt_append (c :: p1) t hc
        rw [List.cons_append] at this
        exact hm this
      rw [stripDevAux, if_neg hm2, ih t h2]

theorem stripDevAux_idem (l : List Char) :
    stripDevAux (stripDevAux l) = stripDevAux l := by
  induction l with
  | nil => rfl
  | cons c rest ih =>
    by_cases h : devMatchAt (c :: rest) = true
    · simp [stripDevAux, h]
    · have hm : ¬devMatchAt (c :: stripDevAux rest) = true := by
        intro hc
        obtain ⟨t, ht⟩ := stripDevAux_append_eq rest
        have h2 := devMatchAt_append (c :: stripDevAux rest) t hc
        rw [List.cons_append, ht] at h2
        exact h h2
      simp [stripDevAux, h, hm, ih]

theorem stripHyphenAux_idem (l : List Char) :
    stripHyphenAux (stripHyphenAux l) = stripHyphenAux l := by
  induction l with
  | nil => rfl
  | cons c rest ih =>
    by_cases h : c = '-'
    · simp [stripHyphenAux, h]
    · simp [stripHyphenAux, h, ih]

theorem normalize_list_idem (l : List Char) :
    stripHyphenAux (stripDevAux (stripHyphenAux (stripDevAux l))) =
      stripHyphenAux (stripDevAux l) := by
  obtain ⟨t, ht⟩ := stripHyphenAux_append_eq (stripDevAux l)
  have hD : stripDevAux (stripHyphenAux (stripDevAux l)) =
      stripHyphenAux (stripDevAux l) := by
    apply stripDevAux_eq_self_of_append _ t
    rw [ht]
    exact stripDevAux_idem l
  rw [hD, stripHyphenAux_idem]

/-- C4: normalization is idempotent: normalizing an already normalized
version string changes nothing. -/
theorem normalize_idem (v : Option String) :
    normalize_version (normalize_version v) = normalize_version v := by
  cases v with
  | none => rfl
  | some s =>
    exact congrArg (fun l => some (String.mk l)) (normalize_list_idem s.data)

/-- C8: normalizing an absent version yields absence. -/
theorem normalize_none : normalize_version none = none := rfl

/-- C3: normalization deletes from the leftmost dev marker (the
case-insensitive literal dev, with an optional single separator before it)
to the end of the string, then deletes everything from the first remaining
hyphen onward; in particular it sends 3.8.0-dev3, 3.8.0 and 3.8.0-1-abc
all to 3.8.0. -/
theorem normalize_structure :
    (∀ s : String, normalize_version (some s) =
      some (String.mk
        ((s.data.take (firstDevMarker s.data)).takeWhile
          (fun c => c != '-')))) ∧
    normalize_version (some "3.8.0-dev3") = some "3.8.0" ∧
    normalize_version (some "3.8.0") = some "3.8.0" ∧
    normalize_version (some "3.8.0-1-abc") = some "3.8.0" := by
  refine ⟨fun s => ?_, by decide, by decide, by decide⟩
  simp only [normalize_version, stripDevAux_eq_take,
    stripHyphenAux_eq_takeWhile]

/-- C6: the system version probe returns the stripped standard output on
success and absence on every kind of execution failure; being a total
function it propagates no exception. -/
theorem get_system_version_spec :
    (∀ out : String, get_system_version (.ok out) = some (pyStrip out)) ∧
    get_system_version .exitNonZero = none ∧
    get_system_version .missingBinary = none ∧
    get_system_version .otherError = none :=
  ⟨fun _ => rfl, rfl, rfl, rfl⟩

theorem actual_versions_isEmpty_false
    (pkg_versions : List (String × Option String))
    (hne : actual_versions pkg_versions ≠ []) :
    (actual_versions pkg_versions).isEmpty = false := by
  cases hq : actual_versions pkg_versions with
  | nil => exact absurd hq hne
  | cons a t => rfl

theorem check_alignment_eq_checked (system_ver : Option String)
    (pkg_versions : List (String × Option String))
    (hne : actual_versions pkg_versions ≠ []) :
    check_alignment system_ver pkg_versions =
      .checked (normalize_version system_ver)
        ((actual_versions pkg_versions).filterMap
          (mismatch_of (normalize_version system_ver))) := by
  simp [check_alignment, actual_versions_isEmpty_false pkg_versions hne]

/-- C1: as soon as one package reports a literal version, the mismatch
list of check_alignment holds exactly the packages whose normalized
version differs from the normalized ground truth, each with its raw and
its normalized version; the check passes exactly when every literal
reported version normalizes to the normalized ground truth, and fails as
soon as one differs. -/
theorem check_alignment_spec (system_ver : Option String)
    (pkg_versions : List (String × Option String))
    (hne : actual_versions pkg_versions ≠ []) :
    (∀ p r n,
      (p, r, n) ∈
          result_mismatches (check_alignment system_ver pkg_versions) ↔
        ((p, r) ∈ actual_versions pkg_versions ∧
          n = normalize_version (some r) ∧
          n ≠ normalize_version system_ver)) ∧
    (check_passes (check_alignment system_ver pkg_versions) = true ↔
      ∀ p r, (p, r) ∈ actual_versions pkg_versions →
        normalize_version (some r) = normalize_version system_ver) ∧
    ((∃ p r, (p, r) ∈ actual_versions pkg_versions ∧
        normalize_version (some r) ≠ normalize_version system_ver) →
      check_passes (check_alignment system_ver pkg_versions) = false) := by
  have heq := check_alignment_eq_checked system_ver pkg_versions hne
  have hmem_iff : ∀ p r n,
      (p, r, n) ∈
          result_mismatches (check_alignment system_ver pkg_versions) ↔
        ((p, r) ∈ actual_versions pkg_versions ∧
          n = normalize_version (some r) ∧
          n ≠ normalize_version system_ver) := by
    intro p r n
    rw [heq]
    simp only [result_mismatches, List.mem_filterMap]
    constructor
    · rintro ⟨⟨q, w⟩, hmem, hq⟩
      simp only [mismatch_of] at hq
      split at hq
      · rename_i hd
        simp only [Option.some.injEq, Prod.mk.injEq] at hq
        obtain ⟨rfl, rfl, hn⟩ := hq
        exact ⟨hmem, hn.symm, hn ▸ hd⟩
      · exact absurd hq (by simp)
    · rintro ⟨hmem, rfl, hd⟩
      exact ⟨(p, r), hmem, by simp [mismatch_of, hd]⟩
  have hpass_iff :
      check_passes (check_alignment system_ver pkg_versions) = true ↔
        ∀ p r, (p, r) ∈ actual_versions pkg_versions →
          normalize_version (some r) = normalize_version system_ver := by
    rw [heq]
    simp only [check_passes, List.isEmpty_iff, List.filterMap_eq_nil_iff]
    constructor
    · intro hall p r hmem
      have h2 := hall (p, r) hmem
      simp only [mismatch_of] at h2
      split at h2
      · exact absurd h2 (by simp)
      · rename_i hd
        simpa using hd
    · intro hall pr hmem
      simp only [mismatch_of]
      have h2 := hall pr.1 pr.2 hmem
      simp [h2]
  refine ⟨hmem_iff, hpass_iff, ?_⟩
  rintro ⟨p, r, hmem, hd⟩
  cases hcp : check_passes (check_alignment system_ver pkg_versions) with
  | false => rfl
  | true => exact absurd (hpass_iff.mp hcp p r hmem) hd

/-- Witness for C1 at a concrete input with one differing package. -/
theorem check_alignment_spec_witness :
    check_passes
      (check_alignment (some "9.3.0") [("pyproj", some "9.2.1")]) =
      false :=
  (check_alignment_spec (some "9.3.0") [("pyproj", some "9.2.1")]
    (by decide)).2.2 ⟨"pyproj", "9.2.1", by decide, by decide⟩

/-- C5: when no package reports a literal version, check_alignment takes
the no-data branch and passes, whatever the ground-truth value is. -/
theorem check_alignment_no_data (system_ver : Option String)
    (pkg_versions : List (String × Option String))
    (h : actual_versions pkg_versions = []) :
    check_alignment system_ver pkg_versions = .noData ∧
    check_passes (check_alignment system_ver pkg_versions) = true := by
  have h2 : check_alignment system_ver pkg_versions = .noData := by
    simp [check_alignment, h]
  exact ⟨h2, by rw [h2]; rfl⟩

/-- Witness for C5 at a concrete input holding only a sentinel and an
absent value, with a present ground truth. -/
theorem check_alignment_no_data_witness :
    actual_versions
        [("rioxarray", some "via rasterio"), ("pyproj", none)] = [] ∧
    check_alignment (some "9.3.0")
        [("rioxarray", some "via rasterio"), ("pyproj", none)] =
      .noData :=
  ⟨by decide,
    (check_alignment_no_data (some "9.3.0")
      [("rioxarray", some "via rasterio"), ("pyproj", none)]
      (by decide)).1⟩

theorem check_passes_false_mismatches (r : CheckResult)
    (h : check_passes r = false) : result_mismatches r ≠ [] := by
  cases r with
  | noData => simp [check_passes] at h
  | checked sn ms =>
    simp only [check_passes] at h
    simp only [result_mismatches]
    intro hnil
    rw [hnil] at h
    simp at h

/-- C2: the script exits with 0 exactly when all three alignment checks
pass, the exit code is always 0 or 1, and a nonzero exit happens only
when some library has a nonempty mismatch list. -/
theorem main_exit_spec (sg sp sge : Option String)
    (gv pv gev : List (String × Option String)) :
    (main_exit sg sp sge gv pv gev = 0 ↔
      (check_passes (check_alignment sg gv) = true ∧
        check_passes (check_alignment sp pv) = true ∧
        check_passes (check_alignment sge gev) = true)) ∧
    (main_exit sg sp sge gv pv gev = 0 ∨
      main_exit sg sp sge gv pv gev = 1) ∧
    (main_exit sg sp sge gv pv gev = 1 →
      (result_mismatches (check_alignment sg gv) ≠ [] ∨
        result_mismatches (check_alignment sp pv) ≠ [] ∨
        result_mismatches (check_alignment sge gev) ≠ [])) := by
  simp only [main_exit]
  refine ⟨?_, ?_, ?_⟩
  · cases hg : check_passes (check_alignment sg gv) <;>
      cases hp : check_passes (check_alignment sp pv) <;>
        cases hge : check_passes (check_alignment sge gev) <;> simp
  · cases hg : check_passes (check_alignment sg gv) <;>
      cases hp : check_passes (check_alignment sp pv) <;>
        cases hge : check_passes (check_alignment sge gev) <;> simp
  · intro h1
    cases hg : check_passes (check_alignment sg gv) with
    | false => exact Or.inl (check_passes_false_mismatches _ hg)
    | true =>
      cases hp : check_passes (check_alignment sp pv) with
      | false => exact Or.inr (Or.inl (check_passes_false_mismatches _ hp))
      | true =>
        cases hge : check_passes (check_alignment sge gev) with
        | false =>
          exact Or.inr (Or.inr (check_passes_false_mismatches _ hge))
        | true =>
          rw [hg, hp, hge] at h1
          simp at h1

/-- Witness for C2 at a concrete input: one misaligned library makes the
exit code 1 and its mismatch list nonempty. -/
theorem main_exit_spec_witness :
    main_exit (some "3.8.0") (some "9.3.0") (some "3.12.1")
      [("rasterio", some "3.7.0")] [] [] = 1 ∧
    result_mismatches
      (check_alignment (some "3.8.0") [("rasterio", some "3.7.0")]) ≠
      [] := by
  refine ⟨by decide, ?_⟩
  have h := (main_exit_spec (some "3.8.0") (some "9.3.0") (some "3.12.1")
      [("rasterio", some "3.7.0")] [] []).2.2 (by decide)
  rcases h with h | h | h
  · exact h
  · exact absurd (by decide) h
  · exact absurd (by decide) h

theorem filterMap_eq_map_of_forall_some {α β : Type} (f : α → Option β)
    (g : α → β) (l : List α) (h : ∀ a ∈ l, f a = some (g a)) :
    l.filterMap f = l.map g := by
  induction l with
  | nil => rfl
  | cons a rest ih =>
    rw [List.filterMap_cons, h a (by simp), List.map_cons,
      ih (fun b hb => h b (by simp [hb]))]

/-- C9: when the ground-truth probe failed and at least one package
reports a literal version, every such package is recorded as a mismatch
with its raw and its normalized version, and the check fails. -/
theorem check_alignment_none_ground_truth
    (pkg_versions : List (String × Option String))
    (hne : actual_versions pkg_versions ≠ []) :
    check_passes (check_alignment none pkg_versions) = false ∧
    result_mismatches (check_alignment none pkg_versions) =
      (actual_versions pkg_versions).map
        (fun pr => (pr.1, pr.2, normalize_version (some pr.2))) := by
  have heq := check_alignment_eq_checked none pkg_versions hne
  have hmap : (actual_versions pkg_versions).filterMap
      (mismatch_of (normalize_version none)) =
      (actual_versions pkg_versions).map
        (fun pr => (pr.1, pr.2, normalize_version (some pr.2))) := by
    apply filterMap_eq_map_of_forall_some
    intro pr _
    simp [mismatch_of, normalize_version]
  constructor
  · rw [heq]
    simp only [check_passes, hmap]
    cases hq : actual_versions pkg_versions with
    | nil => exact absurd hq hne
    | cons a t => rfl
  · rw [heq]
    simp only [result_mismatches, hmap]

/-- Witness for C9 at a concrete input with an absent ground truth. -/
theorem check_alignment_none_ground_truth_witness :
    check_passes (check_alignment none [("shapely", some "3.12.1")]) =
      false :=
  (check_alignment_none_ground_truth [("shapely", some "3.12.1")]
    (by decide)).1

theorem startsWithList_iff_append (p : List Char) (l : List Char) :
    startsWithList p l = true ↔ ∃ t, l = p ++ t := by
  induction p generalizing l with
  | nil =>
    simp only [startsWithList, List.nil_append, true_iff]
    exact ⟨l, rfl⟩
  | cons c ps ih =>
    cases l with
    | nil =>
      simp only [startsWithList, List.cons_append]
      constructor
      · intro h; exact absurd h (by simp)
      · rintro ⟨t, ht⟩; exact absurd ht (by simp)
    | cons d ls =>
      simp only [startsWithList, Bool.and_eq_true, decide_eq_true_eq, ih,
        List.cons_append, List.cons.injEq]
      constructor
      · rintro ⟨rfl, t, rfl⟩; exact ⟨t, rfl, rfl⟩
      · rintro ⟨t, rfl, rfl⟩; exact ⟨rfl, t, rfl⟩

/-- C10: the sentinel test of check_alignment is purely the four-character
text prefix v, i, a, space: a package-value pair enters the comparison set
exactly when the value is present and lacks that prefix, and every
mismatch entry comes from the comparison set, so any value starting with
that prefix is silently skipped and never compared. -/
theorem via_sentinel_spec (pkg_versions : List (String × Option String))
    (p v : String) :
    (startsWithVia v.data = true ↔
      ∃ t, v.data = 'v' :: 'i' :: 'a' :: ' ' :: t) ∧
    ((p, v) ∈ actual_versions pkg_versions ↔
      ((p, some v) ∈ pkg_versions ∧ startsWithVia v.data = false)) ∧
    (∀ system_ver n,
      (p, v, n) ∈
          result_mismatches (check_alignment system_ver pkg_versions) →
        startsWithVia v.data = false) := by
  have hB : (p, v) ∈ actual_versions pkg_versions ↔
      ((p, some v) ∈ pkg_versions ∧ startsWithVia v.data = false) := by
    simp only [actual_versions, List.mem_filterMap]
    constructor
    · rintro ⟨⟨q, ov⟩, hmem, hkeep⟩
      cases ov with
      | none => exact absurd hkeep (by simp [keep_literal])
      | some w =>
        simp only [keep_literal] at hkeep
        split at hkeep
        · exact absurd hkeep (by simp)
        · rename_i hw
          simp only [Option.some.injEq, Prod.mk.injEq] at hkeep
          obtain ⟨rfl, rfl⟩ := hkeep
          exact ⟨hmem, by simpa using hw⟩
    · rintro ⟨hmem, hfalse⟩
      exact ⟨(p, some v), hmem, by simp [keep_literal, hfalse]⟩
  refine ⟨by simpa [startsWithVia] using
    startsWithList_iff_append ['v', 'i', 'a', ' '] v.data, hB, ?_⟩
  intro system_ver n hmem
  by_cases hav : actual_versions pkg_versions = []
  · rw [(check_alignment_no_data system_ver pkg_versions hav).1] at hmem
    exact absurd hmem (by simp [result_mismatches])
  · rw [check_alignment_eq_checked system_ver pkg_versions hav] at hmem
    simp only [result_mismatches, List.mem_filterMap] at hmem
    obtain ⟨⟨q, w⟩, hmem2, hq⟩ := hmem
    simp only [mismatch_of] at hq
    split at hq
    · simp only [Option.some.injEq, Prod.mk.injEq] at hq
      obtain ⟨rfl, rfl, -⟩ := hq
      exact (hB.mp hmem2).2
    · exact absurd hq (by simp)

/-- Witness for C10 at a concrete input: a sentinel value is excluded from
the comparison set. -/
theorem via_sentinel_spec_witness :
    ("rioxarray", "via rasterio") ∉
      actual_versions [("rioxarray", some "via rasterio")] := by
  intro hmem
  have h := (via_sentinel_spec [("rioxarray", some "via rasterio")]
      "rioxarray" "via rasterio").2.1.mp hmem
  exact absurd h.2 (by decide)

/-- C7 counterexample: on a line holding two colons the parser records the
stripped text between the first and the second colon, not the stripped
remainder after the first colon as claimed. -/
theorem gp_value_counterexample :
    (parse_gp_info "GDAL: 3.8.0:x").gdal = some "3.8.0" ∧
    claimed_value "GDAL: 3.8.0:x" = some "3.8.0:x" ∧
    (parse_gp_info "GDAL: 3.8.0:x").gdal ≠
      claimed_value "GDAL: 3.8.0:x" :=
  ⟨by decide, by decide, by decide⟩

theorem pySplitOn_ne_nil (sep : Char) (l : List Char) :
    pySplitOn sep l ≠ [] := by
  cases l with
  | nil => simp [pySplitOn]
  | cons c rest =>
    by_cases h : c = sep
    · simp [pySplitOn, h]
    · simp only [pySplitOn, if_neg h]
      cases hq : pySplitOn sep rest with
      | nil => simp
      | cons a t => simp

theorem pySplitOn_head (sep : Char) (l : List Char) :
    (pySplitOn sep l).head? =
      some (l.takeWhile (fun c => c != sep)) := by
  induction l with
  | nil => rfl
  | cons c rest ih =>
    by_cases h : c = sep
    · simp [pySplitOn, h, List.takeWhile_cons]
    · simp only [pySplitOn, if_neg h]
      cases hq : pySplitOn sep rest with
      | nil => exact absurd hq (pySplitOn_ne_nil sep rest)
      | cons a t =>
        have ha : a = rest.takeWhile (fun c => c != sep) := by
          rw [hq] at ih
          simpa using ih
        simp [List.takeWhile_cons, h, ha]

theorem pySplitOn_second (l : List Char) :
    second? (pySplitOn ':' l) =
      (afterFirstColon l).map
        (fun rest => rest.takeWhile (fun c => c != ':')) := by
  induction l with
  | nil => rfl
  | cons c rest ih =>
    by_cases h : c = ':'
    · simp only [pySplitOn, if_pos h, afterFirstColon]
      cases hq : pySplitOn ':' rest with
      | nil => exact absurd hq (pySplitOn_ne_nil ':' rest)
      | cons a t =>
        have ha := pySplitOn_head ':' rest
        rw [hq] at ha
        simp only [List.head?, Option.some.injEq] at ha
        simp [second?, ha, h]
    · simp only [pySplitOn, if_neg h, afterFirstColon]
      cases hq : pySplitOn ':' rest with
      | nil => exact absurd hq (pySplitOn_ne_nil ':' rest)
      | cons a t =>
        rw [hq] at ih
        cases t with
        | nil => simpa [second?] using ih
        | cons b t2 => simpa [second?] using ih

theorem parse_line_value_eq_secondField (line : String) :
    parse_line_value line = secondField line := by
  have h := pySplitOn_second line.data
  have h1 : parse_line_value line =
      (second? (pySplitOn ':' line.data)).map
        (fun p1 => String.mk (pyStripList p1)) := by
    cases hq : pySplitOn ':' line.data with
    | nil => exact absurd hq (pySplitOn_ne_nil ':' line.data)
    | cons a t =>
      cases t with
      | nil => simp [parse_line_value, hq, second?]
      | cons b t2 => simp [parse_line_value, hq, second?]
  rw [h1, h]
  simp only [secondField]
  cases afterFirstColon line.data with
  | none => rfl
  | some rest => rfl

/-- C7 amended: the geopandas loop scans line by line; a line whose
stripped form starts with GDAL (else PROJ, else GEOS while the lowercased
line does not contain lib) updates the corresponding value with the
stripped text between the first colon and the following colon or end of
line, and is left unchanged when the line has no colon; every other line
changes nothing. -/
theorem gp_step_spec (line : String) (acc : GpVersions) :
    (parse_line_value line = secondField line) ∧
    (startsWithList "GDAL".data (pyStripList line.data) = true →
      gp_step acc line =
        (match secondField line with
          | some v => { acc with gdal := some v }
          | none => acc)) ∧
    (startsWithList "GDAL".data (pyStripList line.data) = false →
      startsWithList "PROJ".data (pyStripList line.data) = true →
      gp_step acc line =
        (match secondField line with
          | some v => { acc with proj := some v }
          | none => acc)) ∧
    (startsWithList "GDAL".data (pyStripList line.data) = false →
      startsWithList "PROJ".data (pyStripList line.data) = false →
      startsWithList "GEOS".data (pyStripList line.data) = true →
      containsLib (line.data.map Char.toLower) = false →
      gp_step acc line =
        (match secondField line with
          | some v => { acc with geos := some v }
          | none => acc)) ∧
    (startsWithList "GDAL".data (pyStripList line.data) = false →
      startsWithList "PROJ".data (pyStripList line.data) = false →
      (startsWithList "GEOS".data (pyStripList line.data) = false ∨
        containsLib (line.data.map Char.toLower) = true) →
      gp_step acc line = acc) := by
  have hv := parse_line_value_eq_secondField line
  refine ⟨hv, ?_, ?_, ?_, ?_⟩
  · intro h1
    simp [gp_step, h1, hv]
  · intro h1 h2
    simp [gp_step, h1, h2, hv]
  · intro h1 h2 h3 h4
    simp [gp_step, h1, h2, h3, h4, hv]
  · intro h1 h2 h3
    rcases h3 with h3 | h3
    · simp [gp_step, h1, h2, h3]
    · simp [gp_step, h1, h2, h3]

/-- Witness for C7 as amended, at a concrete line. -/
theorem gp_step_spec_witness :
    gp_step ⟨none, none, none⟩ "GDAL : 3.8.0" =
      ⟨some "3.8.0", none, none⟩ := by
  have h := (gp_step_spec "GDAL : 3.8.0" ⟨none, none, none⟩).2.1
    (by decide)
  rw [h]
  decide

end CheckPythonVersions
